import Mathlib

/-!
Shallow embedding of `rob7_760_2024/object_det_cloud.py` (class `MapBuilder`).

Modelling conventions:
* A Python float is modelled as `Option ℚ`: `some q` is a finite value,
  `none` stands for a non-finite value (NaN or Inf); `math.isnan(v) or
  math.isinf(v)` becomes `Option.isNone`.
* The code compares `math.sqrt(s) < t` for a fixed positive literal `t`;
  since `sqrt` is monotone this is equivalent to `s < t ^ 2`, and the
  embedding keeps the squared form to stay inside ℚ.
* ROS timestamps are integer nanoseconds (`Int`); the subtraction of two
  stamps in the code yields a `Duration` whose `.nanoseconds` is that
  integer difference, then divided by `1e9`.
* `struct.pack('fffI', ...)` writes native-endian records; the node runs on
  little-endian targets and declares `is_bigendian = False`, so records are
  modelled as little-endian bytes.  The float64 → float32 downcast is
  modelled by an explicit IEEE-754 binary32 round-to-nearest-even encoder
  over ℚ.
-/

/-- A Python float: `some q` finite, `none` non-finite (NaN or Inf). -/
abbrev Coord := Option ℚ

/-- The numeric value of a coordinate; junk value 0 for non-finite inputs
(the code only does arithmetic on coordinates it has already validated). -/
def Coord.val (c : Coord) : ℚ := c.getD 0

/-- A labelled point as stored in `self.transformed_points` (and as delivered
in a batch): dict with keys x, y, z, label. -/
structure Pt where
  x : Coord
  y : Coord
  z : Coord
  label : Nat
deriving DecidableEq, Repr

/-- An unlabelled position, as returned by `transform_point` (dict with keys
x, y, z only; the label is attached afterwards by the caller). -/
structure XYZ where
  x : Coord
  y : Coord
  z : Coord
deriving DecidableEq, Repr

def Pt.pos (p : Pt) : XYZ := ⟨p.x, p.y, p.z⟩

/-- `MapBuilder.is_valid_point`: all of x, y, z are finite. -/
def XYZ.is_valid (p : XYZ) : Bool := p.x.isSome && p.y.isSome && p.z.isSome

def Pt.is_valid (p : Pt) : Bool := p.pos.is_valid

/-- Squared Euclidean distance, the quantity under the `math.sqrt` in
`reduce_points` and `is_point_too_close`. -/
def distSq (a b : XYZ) : ℚ :=
  (a.x.val - b.x.val) ^ 2 + (a.y.val - b.y.val) ^ 2 + (a.z.val - b.z.val) ^ 2

/-- `reduce_points`' `distance_threshold = 0.002`, squared. -/
def d_localSq : ℚ := (2 / 1000) ^ 2

/-- `is_point_too_close`'s `distance_threshold = 0.01`, squared. -/
def d_globalSq : ℚ := (1 / 100) ^ 2

/-- `MapBuilder.reduce_points`: greedy in-order proximity filter at the
local threshold.  `dist < 0.002` is embedded as `distSq < 0.002²`. -/
def reduce_points (points : List Pt) : List Pt :=
  points.foldl
    (fun filtered point =>
      if !point.is_valid then filtered
      else if filtered.any
          (fun f => f.is_valid && decide (distSq point.pos f.pos < d_localSq)) then
        filtered
      else filtered ++ [point])
    []

/-- `MapBuilder.is_point_too_close`: True when the candidate is invalid or
within the global threshold of some valid already-accumulated point. -/
def is_point_too_close (transformed_points : List Pt) (point : XYZ) : Bool :=
  if !point.is_valid then true
  else transformed_points.any
    (fun f => f.is_valid && decide (distSq point f.pos < d_globalSq))

/-- A `geometry_msgs` transform, with the header stamp (nanoseconds) that the
staleness gate compares against the batch stamp. -/
structure Transform where
  tx : Coord
  ty : Coord
  tz : Coord
  rx : Coord
  ry : Coord
  rz : Coord
  rw : Coord
  stamp : Int
deriving DecidableEq, Repr

/-- Rotation of a vector by the quaternion (qx,qy,qz,qw) as performed by
`do_transform_point`: v' = v + qw·t + qv × t with t = 2·(qv × v). -/
def rotate (qx qy qz qw x y z : ℚ) : ℚ × ℚ × ℚ :=
  let tX := 2 * (qy * z - qz * y)
  let tY := 2 * (qz * x - qx * z)
  let tZ := 2 * (qx * y - qy * x)
  (x + qw * tX + (qy * tZ - qz * tY),
   y + qw * tY + (qz * tX - qx * tZ),
   z + qw * tZ + (qx * tY - qy * tX))

/-- `MapBuilder.transform_point`: rejects a transform with non-finite
translation or rotation, otherwise applies rotation then translation.
Non-finite input coordinates propagate (as NaN would) into a non-finite
result. -/
def transform_point (point : Pt) (transform : Transform) : Option XYZ :=
  if !(transform.tx.isSome && transform.ty.isSome && transform.tz.isSome) then none
  else if !(transform.rx.isSome && transform.ry.isSome && transform.rz.isSome
            && transform.rw.isSome) then none
  else
    match point.x, point.y, point.z with
    | some x, some y, some z =>
        let r := rotate transform.rx.val transform.ry.val transform.rz.val
          transform.rw.val x y z
        some ⟨some (r.1 + transform.tx.val), some (r.2.1 + transform.ty.val),
              some (r.2.2 + transform.tz.val)⟩
    | _, _, _ => some ⟨none, none, none⟩

/-- The merge step of `pointcloud_callback` lines 75-80: drop the transformed
candidate when `is_point_too_close`, otherwise append it with its label. -/
def accumulate (st : List Pt) (tp : XYZ) (lbl : Nat) : List Pt :=
  if is_point_too_close st tp then st
  else st ++ [⟨tp.x, tp.y, tp.z, lbl⟩]

/-- One iteration of the loop at lines 71-80 of `pointcloud_callback`. -/
def merge_point (st : List Pt) (transform : Transform) (point : Pt) : List Pt :=
  match transform_point point transform with
  | none => st
  | some tp => accumulate st tp point.label

/-- The staleness quantity of `pointcloud_callback` lines 50-51:
`(transform.header.stamp - timestamp).nanoseconds / 1e9`, in seconds. -/
def time_diff_sec (tfStamp msgStamp : Int) : ℚ :=
  ((tfStamp - msgStamp : Int) : ℚ) / 10 ^ 9

/-- The gate at line 54: skip processing iff `time_diff > 0.1`. -/
def is_stale (tfStamp msgStamp : Int) : Bool :=
  decide ((1 / 10 : ℚ) < time_diff_sec tfStamp msgStamp)

/-- One inbound `PointCloud2` batch, already extracted to (x,y,z,label)
rows; `stamp` is `msg.header.stamp` in nanoseconds. -/
structure Batch where
  stamp : Int
  points : List Pt
deriving DecidableEq, Repr

/-- Result of `tf_buffer.lookup_transform`: a transform, or one of the three
caught exceptions (Lookup/Connectivity/Extrapolation), treated uniformly. -/
inductive LookupResult where
  | ok (transform : Transform)
  | failure
deriving DecidableEq, Repr

/-- The little-endian bytes of the low 32 bits of `n`. -/
def bytesLE4 (n : Nat) : List Nat :=
  [n % 2 ^ 8, n / 2 ^ 8 % 2 ^ 8, n / 2 ^ 16 % 2 ^ 8, n / 2 ^ 24 % 2 ^ 8]

/-- Round-to-nearest, ties-to-even of a rational to an integer. -/
def rne (x : ℚ) : ℤ :=
  let n := ⌊x⌋
  let f := x - n
  if f < 1 / 2 then n
  else if 1 / 2 < f then n + 1
  else if 2 ∣ n then n else n + 1

/-- IEEE-754 binary32 bit pattern of a rational, round-to-nearest-even:
the conversion performed by `struct.pack('f', v)` on a finite float64.
Mantissa rounding that overflows carries into the exponent field (and, at
the top of the range, into the infinity encoding) by construction. -/
def f32bits (x : ℚ) : Nat :=
  if x = 0 then 0
  else
    let s : Nat := if x < 0 then 2 ^ 31 else 0
    let a : ℚ := |x|
    let e : ℤ := Int.log 2 a
    if 128 ≤ e then s + 255 * 2 ^ 23
    else if e ≤ -127 then s + (rne (a * 2 ^ 149)).toNat
    else s + (e + 126).toNat * 2 ^ 23 + (rne (a * (2 : ℚ) ^ (23 - e))).toNat

/-- Bit pattern written for one coordinate: the binary32 encoding of a
finite value, the canonical quiet-NaN pattern for a non-finite one. -/
def f32bitsC (c : Coord) : Nat :=
  match c with
  | some x => f32bits x
  | none => 0x7FC00000

/-- Value of a binary32 bit pattern (only the low 32 bits of `b` matter).
Exponent 255 encodes Inf/NaN, which ℚ cannot represent; those patterns
decode to the junk value 0 and never arise from in-range finite inputs. -/
def f32val (b : Nat) : ℚ :=
  let s : Nat := b / 2 ^ 31 % 2
  let e : Nat := b / 2 ^ 23 % 2 ^ 8
  let m : Nat := b % 2 ^ 23
  let sgn : ℚ := if s = 1 then -1 else 1
  if e = 0 then sgn * (m : ℚ) / 2 ^ 149
  else if e = 255 then 0
  else sgn * (2 ^ 23 + (m : ℚ)) * (2 : ℚ) ^ ((e : ℤ) - 150)

/-- The float32-rounded image of a coordinate: what storing it in a
binary32 slot and reading it back yields. -/
def f32roundC (c : Coord) : ℚ := f32val (f32bitsC c)

/-- `struct.pack('fffI', x, y, z, label)`: one 16-byte record,
x at offset 0, y at 4, z at 8, label at 12, little-endian. -/
def pack_point (p : Pt) : List Nat :=
  bytesLE4 (f32bitsC p.x) ++ bytesLE4 (f32bitsC p.y) ++ bytesLE4 (f32bitsC p.z)
    ++ bytesLE4 p.label

/-- The published `PointCloud2` metadata and payload built by
`publish_point_cloud`. -/
structure CloudMsg where
  width : Nat
  height : Nat
  point_step : Nat
  is_bigendian : Bool
  data : List Nat
deriving DecidableEq, Repr

/-- `MapBuilder.publish_point_cloud`: returns early (no publish) on an empty
set, otherwise publishes the concatenated records in insertion order. -/
def publish_point_cloud (transformed_points : List Pt) : Option CloudMsg :=
  if transformed_points = [] then none
  else some
    { width := transformed_points.length
      height := 1
      point_step := 16
      is_bigendian := false
      data := (transformed_points.map pack_point).flatten }

/-- `MapBuilder.pointcloud_callback`: the whole per-batch pass.  Returns the
new `transformed_points` state and the publish event (`none` = no publish). -/
def pointcloud_callback (st : List Pt) (msg : Batch) (lr : LookupResult) :
    List Pt × Option CloudMsg :=
  match lr with
  | .failure => (st, none)
  | .ok transform =>
    if is_stale transform.stamp msg.stamp then (st, none)
    else
      let pts := reduce_points msg.points
      let st' := pts.foldl (fun s p => merge_point s transform p) st
      (st', publish_point_cloud st')

/-- Folding a sequence of batches (each with its lookup outcome) through the
callback, starting from the empty accumulated set. -/
def runBatches (batches : List (Batch × LookupResult)) : List Pt :=
  batches.foldl (fun st b => (pointcloud_callback st b.1 b.2).1) []

/-- The accumulated-set invariant: every stored point is valid and every
pair of stored points is at least the global threshold apart. -/
def SepInv (st : List Pt) : Prop :=
  (∀ p ∈ st, p.is_valid = true) ∧
  st.Pairwise (fun a b => d_globalSq ≤ distSq a.pos b.pos)

/-- The reducer-output invariant: every kept point is valid and every pair
of kept points is at least the local threshold apart. -/
def RedInv (l : List Pt) : Prop :=
  (∀ p ∈ l, p.is_valid = true) ∧
  l.Pairwise (fun a b => d_localSq ≤ distSq a.pos b.pos)

/-- The Batch Reducer as §4.2 of the spec words it (for the refinement
claim): iterate in arrival order over a growing kept list, rejecting a
candidate iff it is invalid or within `d_local` of some already-kept point,
keeping it otherwise. -/
def reduce_points_spec_go (kept : List Pt) : List Pt → List Pt
  | [] => kept
  | p :: rest =>
      if !p.is_valid
          || kept.any (fun k => decide (distSq p.pos k.pos < d_localSq)) then
        reduce_points_spec_go kept rest
      else reduce_points_spec_go (kept ++ [p]) rest

/-- Entry point of the spec-side reducer. -/
def reduce_points_spec (points : List Pt) : List Pt := reduce_points_spec_go [] points

/-- A 32-bit little-endian value from four bytes. -/
def decodeU32LE (b0 b1 b2 b3 : Nat) : Nat :=
  b0 + 2 ^ 8 * b1 + 2 ^ 16 * b2 + 2 ^ 24 * b3

/-- Decoding one 16-byte record with the documented layout: float32 x at
offset 0, y at offset 4, z at offset 8, uint32 label at offset 12, all
little-endian.  Junk on a list that is not 16 bytes long. -/
def decodeRecord (r : List Nat) : ℚ × ℚ × ℚ × Nat :=
  match r with
  | [x0, x1, x2, x3, y0, y1, y2, y3, z0, z1, z2, z3, l0, l1, l2, l3] =>
      (f32val (decodeU32LE x0 x1 x2 x3), f32val (decodeU32LE y0 y1 y2 y3),
       f32val (decodeU32LE z0 z1 z2 z3), decodeU32LE l0 l1 l2 l3)
  | _ => (0, 0, 0, 0)

/-- The identity transform (zero translation, unit quaternion) with stamp 0,
used by concrete scenarios. -/
def idTransform : Transform :=
  ⟨some 0, some 0, some 0, some 0, some 0, some 0, some 1, 0⟩

/-- A batch holding two mutually-close points: 0.005 apart, which is above
the local threshold 0.002 but below the global threshold 0.01. -/
def closePairBatch : Batch :=
  ⟨0, [⟨some 0, some 0, some 0, 1⟩, ⟨some (1 / 200), some 0, some 0, 2⟩]⟩

/-! ## General helper lemmas -/

theorem foldl_preserve {α β : Type} (f : α → β → α) (Inv : α → Prop)
    (step : ∀ a b, Inv a → Inv (f a b)) :
    ∀ (l : List β) (a : α), Inv a → Inv (l.foldl f a) := by
  intro l
  induction l with
  | nil => intro a h; exact h
  | cons b t ih => intro a h; exact ih (f a b) (step a b h)

theorem distSq_comm (a b : XYZ) : distSq a b = distSq b a := by
  unfold distSq; ring

theorem distSq_self (a : XYZ) : distSq a a = 0 := by
  unfold distSq; ring

theorem pos_mk (x y z : Coord) (lbl : Nat) :
    (Pt.pos ⟨x, y, z, lbl⟩) = ⟨x, y, z⟩ := rfl

theorem any_valid_and (l : List Pt) (q : Pt → Bool)
    (h : ∀ f ∈ l, f.is_valid = true) :
    (l.any fun f => f.is_valid && q f) = l.any q := by
  induction l with
  | nil => rfl
  | cons a t ih =>
      simp only [List.any_cons]
      rw [h a (by simp), Bool.true_and,
        ih (fun f hf => h f (List.mem_cons_of_mem a hf))]

/-! ## Accumulator invariant lemmas -/

theorem accumulate_sep (st : List Pt) (tp : XYZ) (lbl : Nat) (h : SepInv st) :
    SepInv (accumulate st tp lbl) := by
  unfold accumulate
  by_cases hc : is_point_too_close st tp = true
  · simp only [hc, if_true]; exact h
  · rw [if_neg hc]
    rw [Bool.not_eq_true] at hc
    unfold is_point_too_close at hc
    by_cases hv : tp.is_valid = true
    · rw [hv] at hc
      simp only [Bool.not_true, Bool.false_eq_true, if_false] at hc
      have hfar : ∀ f ∈ st, d_globalSq ≤ distSq tp f.pos := by
        intro f hf
        have hff := List.any_eq_false.mp hc f hf
        rw [h.1 f hf, Bool.true_and, decide_eq_true_eq] at hff
        exact not_lt.mp hff
      constructor
      · intro p hp
        rcases List.mem_append.mp hp with hp | hp
        · exact h.1 p hp
        · simp only [List.mem_singleton] at hp
          subst hp
          show (⟨tp.x, tp.y, tp.z⟩ : XYZ).is_valid = true
          exact hv
      · rw [List.pairwise_append]
        refine ⟨h.2, List.pairwise_singleton _ _, ?_⟩
        intro a ha b hb
        simp only [List.mem_singleton] at hb
        subst hb
        rw [pos_mk, distSq_comm]
        exact hfar a ha
    · exfalso
      rw [Bool.not_eq_true] at hv
      rw [hv] at hc
      simp at hc

theorem merge_point_sep (st : List Pt) (tf : Transform) (p : Pt) (h : SepInv st) :
    SepInv (merge_point st tf p) := by
  unfold merge_point
  cases transform_point p tf with
  | none => exact h
  | some tp => exact accumulate_sep st tp p.label h

theorem callback_sep (st : List Pt) (msg : Batch) (lr : LookupResult)
    (h : SepInv st) : SepInv (pointcloud_callback st msg lr).1 := by
  cases lr with
  | failure => exact h
  | ok tf =>
      unfold pointcloud_callback
      by_cases hs : is_stale tf.stamp msg.stamp = true
      · simp only [hs, if_true]; exact h
      · simp only [Bool.not_eq_true] at hs
        simp only [hs, Bool.false_eq_true, if_false]
        exact foldl_preserve _ SepInv (fun a b => merge_point_sep a tf b)
          (reduce_points msg.points) st h

theorem runBatches_sep (batches : List (Batch × LookupResult)) :
    SepInv (runBatches batches) := by
  unfold runBatches
  refine foldl_preserve _ SepInv
    (fun st b => callback_sep st b.1 b.2) batches [] ⟨?_, List.Pairwise.nil⟩
  intro p hp
  cases hp

/-! ## Batch Reducer lemmas -/

theorem reduce_step_pres (acc : List Pt) (p : Pt) (h : RedInv acc) :
    RedInv (if !p.is_valid then acc
      else if acc.any
          (fun f => f.is_valid && decide (distSq p.pos f.pos < d_localSq)) then
        acc
      else acc ++ [p]) := by
  by_cases hv : p.is_valid = true
  · rw [hv]
    simp only [Bool.not_true, Bool.false_eq_true, if_false]
    by_cases ha : (acc.any
        fun f => f.is_valid && decide (distSq p.pos f.pos < d_localSq)) = true
    · rw [if_pos ha]; exact h
    · rw [Bool.not_eq_true] at ha
      rw [if_neg (by rw [ha]; exact Bool.false_ne_true)]
      have hfar : ∀ f ∈ acc, d_localSq ≤ distSq p.pos f.pos := by
        intro f hf
        have hff := List.any_eq_false.mp ha f hf
        rw [h.1 f hf, Bool.true_and, decide_eq_true_eq] at hff
        exact not_lt.mp hff
      constructor
      · intro q hq
        rcases List.mem_append.mp hq with hq | hq
        · exact h.1 q hq
        · simp only [List.mem_singleton] at hq; subst hq; exact hv
      · rw [List.pairwise_append]
        refine ⟨h.2, List.pairwise_singleton _ _, ?_⟩
        intro a ha2 b hb
        simp only [List.mem_singleton] at hb
        subst hb
        rw [distSq_comm]
        exact hfar a ha2
  · rw [Bool.not_eq_true] at hv
    rw [hv]
    simp only [Bool.not_false, if_true]
    exact h

theorem reduce_points_redinv (points : List Pt) : RedInv (reduce_points points) := by
  unfold reduce_points
  refine foldl_preserve _ RedInv
    (fun a b hI => reduce_step_pres a b hI) points [] ⟨?_, List.Pairwise.nil⟩
  intro p hp
  cases hp

theorem reduce_go_eq (points : List Pt) :
    ∀ acc : List Pt, (∀ f ∈ acc, f.is_valid = true) →
    points.foldl
      (fun filtered point =>
        if !point.is_valid then filtered
        else if filtered.any
            (fun f => f.is_valid && decide (distSq point.pos f.pos < d_localSq)) then
          filtered
        else filtered ++ [point])
      acc = reduce_points_spec_go acc points := by
  induction points with
  | nil => intro acc _; rfl
  | cons p rest ih =>
      intro acc h
      rw [List.foldl_cons]
      unfold reduce_points_spec_go
      by_cases hv : p.is_valid = true
      · rw [hv]
        simp only [Bool.not_true, Bool.false_eq_true, if_false, Bool.false_or]
        rw [any_valid_and acc _ h]
        by_cases ha : (acc.any
            fun k => decide (distSq p.pos k.pos < d_localSq)) = true
        · rw [ha, if_pos rfl, if_pos rfl]
          exact ih acc h
        · rw [Bool.not_eq_true] at ha
          rw [ha, if_neg Bool.false_ne_true, if_neg Bool.false_ne_true]
          refine ih (acc ++ [p]) ?_
          intro f hf
          rcases List.mem_append.mp hf with hf | hf
          · exact h f hf
          · simp only [List.mem_singleton] at hf; subst hf; exact hv
      · rw [Bool.not_eq_true] at hv
        rw [hv]
        simp only [Bool.not_false, if_true, Bool.true_or, if_pos rfl]
        exact ih acc h

theorem reduce_points_eq_spec (points : List Pt) :
    reduce_points points = reduce_points_spec points := by
  unfold reduce_points reduce_points_spec
  exact reduce_go_eq points [] (by intro f hf; cases hf)

/-! ## Admission gate lemmas -/

theorem is_stale_iff (t m : Int) : is_stale t m = true ↔ (10 ^ 8 : Int) < t - m := by
  unfold is_stale time_diff_sec
  rw [decide_eq_true_eq, lt_div_iff₀ (by norm_num : (0 : ℚ) < 10 ^ 9)]
  have h : (1 / 10 : ℚ) * 10 ^ 9 = ((10 ^ 8 : Int) : ℚ) := by norm_num
  rw [h, Int.cast_lt]

/-! ## Merge-loop structure lemmas -/

theorem merge_point_extends (st : List Pt) (tf : Transform) (p : Pt) :
    ∃ tl, merge_point st tf p = st ++ tl := by
  unfold merge_point
  cases transform_point p tf with
  | none => exact ⟨[], (List.append_nil st).symm⟩
  | some tp =>
      show ∃ tl, accumulate st tp p.label = st ++ tl
      unfold accumulate
      by_cases hc : is_point_too_close st tp = true
      · rw [if_pos hc]; exact ⟨[], (List.append_nil st).symm⟩
      · rw [if_neg hc]; exact ⟨[⟨tp.x, tp.y, tp.z, p.label⟩], rfl⟩

theorem merge_fold_extends (tf : Transform) (pts : List Pt) :
    ∀ st : List Pt, ∃ tl,
      pts.foldl (fun s p => merge_point s tf p) st = st ++ tl := by
  induction pts with
  | nil => exact fun st => ⟨[], (List.append_nil st).symm⟩
  | cons p rest ih =>
      intro st
      rw [List.foldl_cons]
      obtain ⟨t1, h1⟩ := merge_point_extends st tf p
      obtain ⟨t2, h2⟩ := ih (merge_point st tf p)
      exact ⟨t1 ++ t2, by rw [h2, h1, List.append_assoc]⟩

theorem callback_extends (st : List Pt) (msg : Batch) (lr : LookupResult) :
    ∃ tl, (pointcloud_callback st msg lr).1 = st ++ tl := by
  cases lr with
  | failure => exact ⟨[], (List.append_nil st).symm⟩
  | ok tf =>
      simp only [pointcloud_callback]
      by_cases hs : is_stale tf.stamp msg.stamp = true
      · rw [if_pos hs]; exact ⟨[], (List.append_nil st).symm⟩
      · rw [if_neg hs]
        exact merge_fold_extends tf (reduce_points msg.points) st

/-! ## Serializer lemmas -/

theorem pack_point_length (p : Pt) : (pack_point p).length = 16 := by
  simp [pack_point, bytesLE4]

theorem flatten_pack_length (pts : List Pt) :
    ((pts.map pack_point).flatten).length = 16 * pts.length := by
  induction pts with
  | nil => rfl
  | cons p t ih =>
      simp only [List.map_cons, List.flatten_cons, List.length_append,
        pack_point_length, ih, List.length_cons]
      ring

theorem flatten_segment (pts : List Pt) :
    ∀ (i : Nat) (hi : i < pts.length),
      (((pts.map pack_point).flatten).drop (16 * i)).take 16
        = pack_point (pts.get ⟨i, hi⟩) := by
  induction pts with
  | nil => intro i hi; exact absurd hi (by simp)
  | cons p t ih =>
      intro i hi
      cases i with
      | zero =>
          simp only [List.map_cons, List.flatten_cons, Nat.mul_zero, List.drop_zero]
          rw [show (16 : Nat) = (pack_point p).length from (pack_point_length p).symm,
            List.take_left]
          rfl
      | succ j =>
          simp only [List.map_cons, List.flatten_cons]
          rw [show 16 * (j + 1) = (pack_point p).length + 16 * j by
            rw [pack_point_length]; ring]
          rw [List.drop_append]
          exact ih j (Nat.lt_of_succ_lt_succ hi)

theorem decodeU32_bytes (n : Nat) :
    decodeU32LE (n % 2 ^ 8) (n / 2 ^ 8 % 2 ^ 8) (n / 2 ^ 16 % 2 ^ 8)
      (n / 2 ^ 24 % 2 ^ 8) = n % 2 ^ 32 := by
  unfold decodeU32LE
  omega

theorem f32val_mod (n : Nat) : f32val (n % 2 ^ 32) = f32val n := by
  unfold f32val
  have h1 : n % 2 ^ 32 / 2 ^ 31 % 2 = n / 2 ^ 31 % 2 := by omega
  have h2 : n % 2 ^ 32 / 2 ^ 23 % 2 ^ 8 = n / 2 ^ 23 % 2 ^ 8 := by omega
  have h3 : n % 2 ^ 32 % 2 ^ 23 = n % 2 ^ 23 := by omega
  rw [h1, h2, h3]

theorem decodeRecord_pack (p : Pt) :
    decodeRecord (pack_point p)
      = (f32roundC p.x, f32roundC p.y, f32roundC p.z, p.label % 2 ^ 32) := by
  simp only [pack_point, bytesLE4, List.cons_append, List.nil_append, decodeRecord]
  rw [decodeU32_bytes, decodeU32_bytes, decodeU32_bytes, decodeU32_bytes,
    f32val_mod, f32val_mod, f32val_mod]
  rfl

/-! ## Claim theorems -/

/-- C1: after processing any sequence of batches every pair of points in the
accumulated set — in particular every pair merged during different batches —
is at least `d_global = 0.01` apart (stated in squared form), and this
sparsity invariant is preserved by every processing pass. -/
theorem claim_merge_sparsity :
    (∀ batches : List (Batch × LookupResult),
      (∀ p ∈ runBatches batches, p.is_valid = true) ∧
      (runBatches batches).Pairwise
        (fun a b => d_globalSq ≤ distSq a.pos b.pos)) ∧
    (∀ (st : List Pt) (msg : Batch) (lr : LookupResult),
      SepInv st → SepInv (pointcloud_callback st msg lr).1) :=
  ⟨runBatches_sep, callback_sep⟩

/-- Witness for C1 at a concrete input: the invariant is established for the
empty set and preserved through one concrete pass. -/
theorem claim_merge_sparsity_witness :
    SepInv (pointcloud_callback [] closePairBatch (.ok idTransform)).1 :=
  claim_merge_sparsity.2 [] closePairBatch (.ok idTransform)
    ⟨fun p hp => absurd hp (List.not_mem_nil p), List.Pairwise.nil⟩

/-- C2 counterexample: the claim asserts that same-batch candidates are only
checked against the pre-batch accumulated set, so both points of
`closePairBatch` (0.005 apart, i.e. closer than `d_global`) would be
appended.  On the code, merging that batch into the empty set appends only
the first point: the second is rejected against the first, which was
appended earlier in the same pass. -/
theorem claim_same_batch_cex :
    (pointcloud_callback [] closePairBatch (.ok idTransform)).1
      = [⟨some 0, some 0, some 0, 1⟩] ∧
    ¬(pointcloud_callback [] closePairBatch (.ok idTransform)).1.length = 2 := by
  have h1 : (pointcloud_callback [] closePairBatch (.ok idTransform)).1
      = [⟨some 0, some 0, some 0, 1⟩] := by
    norm_num [pointcloud_callback, is_stale, time_diff_sec, reduce_points,
      merge_point, transform_point, rotate, accumulate, is_point_too_close,
      closePairBatch, idTransform, Pt.is_valid, Pt.pos, XYZ.is_valid,
      Coord.val, distSq, d_globalSq, d_localSq, Option.isSome_some,
      Option.some_ne_none, List.any_cons, List.any_nil, List.foldl_cons,
      List.foldl_nil]
  refine ⟨h1, ?_⟩
  rw [h1]
  decide

/-- C2 amended: each transformed candidate is tested against all points in
the accumulated set at the moment it is merged, including candidates of the
same batch appended earlier in the pass; hence the points appended during
one pass are pairwise at least `d_global` apart and two mutually-close
candidates can never both be appended. -/
theorem claim_same_batch_amended (st : List Pt) (msg : Batch)
    (lr : LookupResult) (h : SepInv st) :
    ((pointcloud_callback st msg lr).1.drop st.length).Pairwise
      (fun a b => d_globalSq ≤ distSq a.pos b.pos) := by
  obtain ⟨tl, htl⟩ := callback_extends st msg lr
  have hsep := callback_sep st msg lr h
  rw [htl] at hsep ⊢
  rw [List.drop_left]
  exact (List.pairwise_append.mp hsep.2).2.1

/-- Witness for the amended C2 at a concrete input. -/
theorem claim_same_batch_amended_witness :
    ((pointcloud_callback [] closePairBatch (.ok idTransform)).1.drop 0).Pairwise
      (fun a b => d_globalSq ≤ distSq a.pos b.pos) :=
  claim_same_batch_amended [] closePairBatch (.ok idTransform)
    ⟨fun p hp => absurd hp (List.not_mem_nil p), List.Pairwise.nil⟩

/-- C3: every output of the Batch Reducer is pairwise at least
`d_local = 0.002` apart (squared form) and contains no point with a
non-finite coordinate. -/
theorem claim_reducer_sparsity (points : List Pt) :
    (∀ p ∈ reduce_points points, p.is_valid = true) ∧
    (reduce_points points).Pairwise
      (fun a b => d_localSq ≤ distSq a.pos b.pos) :=
  reduce_points_redinv points

/-- Witness for C3 at a concrete input. -/
theorem claim_reducer_sparsity_witness :
    (⟨some 0, some 0, some 0, 1⟩ : Pt).is_valid = true :=
  (claim_reducer_sparsity [⟨some 0, some 0, some 0, 1⟩]).1
    ⟨some 0, some 0, some 0, 1⟩ (by decide)

/-- C4: for a successful lookup the gate computes the skew
(transform stamp − batch stamp) in fractional seconds and drops the batch
exactly when it exceeds 0.1 s; a batch with transform stamp T+0.05 s is
accepted and one with T+0.2 s is rejected. -/
theorem claim_gate_skew :
    (∀ t m : Int, is_stale t m = true ↔ (1 / 10 : ℚ) < time_diff_sec t m) ∧
    (∀ (st : List Pt) (msg : Batch) (tf : Transform),
      is_stale tf.stamp msg.stamp = true →
      pointcloud_callback st msg (.ok tf) = (st, none)) ∧
    (∀ m : Int, is_stale (m + 50000000) m = false) ∧
    (∀ m : Int, is_stale (m + 200000000) m = true) ∧
    (pointcloud_callback [] (⟨0, [⟨some 0, some 0, some 0, 3⟩]⟩ : Batch)
        (.ok ⟨some 0, some 0, some 0, some 0, some 0, some 0, some 1,
          50000000⟩)).1
      = [⟨some 0, some 0, some 0, 3⟩] := by
  refine ⟨?_, ?_, ?_, ?_, ?_⟩
  · intro t m
    unfold is_stale
    exact decide_eq_true_iff
  · intro st msg tf h
    simp only [pointcloud_callback]
    rw [if_pos h]
  · intro m
    rw [Bool.eq_false_iff]
    intro hh
    have := (is_stale_iff _ _).mp hh
    omega
  · intro m
    exact (is_stale_iff _ _).mpr (by omega)
  · norm_num [pointcloud_callback, is_stale, time_diff_sec, reduce_points,
      merge_point, transform_point, rotate, accumulate, is_point_too_close,
      Pt.is_valid, Pt.pos, XYZ.is_valid, Coord.val, distSq, d_globalSq,
      d_localSq, Option.isSome_some, Option.some_ne_none, List.any_cons,
      List.any_nil, List.foldl_cons, List.foldl_nil]

/-- Witness for C4 at a concrete input: a transform 0.2 s newer than the
batch makes the whole pass a no-op. -/
theorem claim_gate_skew_witness :
    pointcloud_callback [] (⟨0, []⟩ : Batch)
        (.ok ⟨some 0, some 0, some 0, some 0, some 0, some 0, some 1,
          200000000⟩)
      = ([], none) :=
  claim_gate_skew.2.1 []
    ⟨0, []⟩
    ⟨some 0, some 0, some 0, some 0, some 0, some 0, some 1, 200000000⟩
    (by norm_num [is_stale, time_diff_sec])

/-- C6: re-merging a candidate whose coordinates are identical to a point
already present in the accumulated set (whatever either label is) drops the
candidate and leaves the set unchanged. -/
theorem claim_idempotent_remerge (st : List Pt) (tp : XYZ) (lbl : Nat)
    (q : Pt) (hq : q ∈ st) (hx : q.x = tp.x) (hy : q.y = tp.y)
    (hz : q.z = tp.z) :
    accumulate st tp lbl = st := by
  have hclose : is_point_too_close st tp = true := by
    unfold is_point_too_close
    by_cases hv : tp.is_valid = true
    · rw [hv]
      simp only [Bool.not_true, Bool.false_eq_true, if_false]
      refine List.any_eq_true.mpr ⟨q, hq, ?_⟩
      have hqp : q.pos = tp := by
        show XYZ.mk q.x q.y q.z = tp
        rw [hx, hy, hz]
      rw [show q.is_valid = q.pos.is_valid from rfl, hqp, hv, Bool.true_and,
        distSq_self, decide_eq_true_eq, d_globalSq]
      norm_num
    · rw [Bool.not_eq_true] at hv
      rw [hv]
      rfl
  rw [accumulate, if_pos hclose]

/-- Witness for C6 at a concrete input. -/
theorem claim_idempotent_remerge_witness :
    accumulate [⟨some 1, some 2, some 3, 5⟩] ⟨some 1, some 2, some 3⟩ 9
      = [⟨some 1, some 2, some 3, 5⟩] :=
  claim_idempotent_remerge _ _ 9 ⟨some 1, some 2, some 3, 5⟩
    (by decide) rfl rfl rfl

/-- C7: the Batch Reducer equals the order-dependent greedy dedup described
by the spec (first-seen wins, rejection iff invalid or within `d_local` of
an already-kept point), and the spec's concrete scenario reduces as stated. -/
theorem claim_reducer_greedy :
    (∀ points : List Pt, reduce_points points = reduce_points_spec points) ∧
    reduce_points
        [⟨some 0, some 0, some 0, 1⟩, ⟨some 0, some 0, some (1 / 1000), 1⟩,
         ⟨some 5, some 5, some 5, 2⟩]
      = [⟨some 0, some 0, some 0, 1⟩, ⟨some 5, some 5, some 5, 2⟩] :=
  ⟨reduce_points_eq_spec, by
    norm_num [reduce_points, List.foldl_cons, List.foldl_nil, Pt.is_valid,
      Pt.pos, XYZ.is_valid, Coord.val, distSq, d_localSq, List.any_cons,
      List.any_nil, Option.isSome_some, Option.some_ne_none]⟩

/-- C8: when the transform lookup fails the batch is dropped: the
accumulated set is returned unchanged and no publish occurs. -/
theorem claim_lookup_failure_drop (st : List Pt) (msg : Batch) :
    pointcloud_callback st msg .failure = (st, none) := rfl

/-- C9: serializing an empty accumulated set produces no publish at all. -/
theorem claim_empty_no_publish : publish_point_cloud [] = none := rfl

/-- C10: the staleness gate is one-sided and strict: it rejects exactly when
the transform stamp exceeds the batch stamp by strictly more than 0.1 s
(10⁸ ns); a skew of exactly 0.1 s is admitted, and any transform older than
the batch (non-positive skew) is admitted regardless of age. -/
theorem claim_gate_one_sided :
    (∀ t m : Int, is_stale t m = true ↔ (10 ^ 8 : Int) < t - m) ∧
    (∀ m : Int, is_stale (m + 10 ^ 8) m = false) ∧
    (∀ m d : Int, d ≤ 0 → is_stale (m + d) m = false) := by
  refine ⟨is_stale_iff, ?_, ?_⟩
  · intro m
    rw [Bool.eq_false_iff]
    intro hh
    have := (is_stale_iff _ _).mp hh
    omega
  · intro m d hd
    rw [Bool.eq_false_iff]
    intro hh
    have := (is_stale_iff _ _).mp hh
    omega

/-- Witness for C10 at a concrete input: a transform a full second older
than the batch is still admitted. -/
theorem claim_gate_one_sided_witness :
    is_stale (0 + -(10 ^ 9) : Int) 0 = false :=
  claim_gate_one_sided.2.2 0 (-(10 ^ 9)) (by norm_num)

/-- C5: publishing an accumulated set of N points yields a 16×N-byte buffer
of consecutive little-endian records in insertion order; decoding record i
with the documented layout (x at 0, y at 4, z at 8, label at 12) recovers
each coordinate as its float32-rounded original and each label exactly. -/
theorem claim_serialization_roundtrip (pts : List Pt) (m : CloudMsg)
    (hlbl : ∀ p ∈ pts, p.label < 2 ^ 32)
    (hpub : publish_point_cloud pts = some m) :
    m.data.length = 16 * pts.length ∧ m.width = pts.length ∧
    m.point_step = 16 ∧ m.is_bigendian = false ∧
    ∀ (i : Nat) (hi : i < pts.length),
      decodeRecord ((m.data.drop (16 * i)).take 16)
        = (f32roundC (pts.get ⟨i, hi⟩).x, f32roundC (pts.get ⟨i, hi⟩).y,
           f32roundC (pts.get ⟨i, hi⟩).z, (pts.get ⟨i, hi⟩).label) := by
  unfold publish_point_cloud at hpub
  by_cases hne : pts = []
  · rw [if_pos hne] at hpub
    cases hpub
  · rw [if_neg hne] at hpub
    injection hpub with hm
    subst hm
    refine ⟨flatten_pack_length pts, rfl, rfl, rfl, ?_⟩
    intro i hi
    rw [flatten_segment pts i hi, decodeRecord_pack,
      Nat.mod_eq_of_lt (hlbl _ (pts.get_mem i hi))]

/-- Witness for C5 at a concrete input: a one-point set round-trips. -/
theorem claim_serialization_roundtrip_witness :
    decodeRecord
        (((([(⟨some 1, some 0, some 0, 7⟩ : Pt)].map pack_point).flatten).drop
          (16 * 0)).take 16)
      = (f32roundC (some 1), f32roundC (some 0), f32roundC (some 0), 7) := by
  have h := claim_serialization_roundtrip [⟨some 1, some 0, some 0, 7⟩]
    ⟨1, 1, 16, false,
      (([(⟨some 1, some 0, some 0, 7⟩ : Pt)].map pack_point).flatten)⟩
    (by intro p hp; rw [List.mem_singleton] at hp; subst hp; norm_num)
    rfl
  exact h.2.2.2.2 0 (by norm_num)
